import Mathlib

/-!
Verification of the client-side Collaborative Data Store of the `cowork`
mobile app (source: `src/MyFirstApp/contexts/ProjectsContext.tsx`).

The store is embedded shallowly: every backend interaction (Supabase row
queries, inserts, deletes, upserts, the password-verification RPC) is an
asynchronous request/response pair, so each operation is modelled as a pure
function from the backend's responses and the previous local project list to
the operation's return value, the new local project list, and the trace of
remote calls it issued.  JavaScript `null`/`undefined` results are `Option`,
Supabase `{ data, error }` envelopes are `QueryResult`, and PostgREST errors
carry their `code` string (the code inspects `23505`).
-/

namespace Cowork

/-- A row of the `projects` relation, as the `Project` interface in
`ProjectsContext.tsx` declares it: identifier, name, creation timestamp,
owning user identifier, optional due date, optional password, and the
`project_members(count)` aggregation. -/
structure Project where
  id : String
  name : String
  created_at : String
  user_id : String
  due_date : Option String := none
  password : Option String := none
  project_members : List Nat := []
deriving DecidableEq, Repr

/-- A PostgREST error object; the source inspects its `code` (`23505` is a
unique-constraint violation) and logs its message. -/
structure PgError where
  code : String
  message : String := ""
deriving DecidableEq, Repr

/-- A Supabase response envelope `{ data, error }`: `data` is `null` exactly
when the request failed, but the source only relies on `data` being possibly
null, so the model keeps the two fields independent. -/
structure QueryResult (α : Type) where
  data : Option α
  error : Option PgError
deriving DecidableEq, Repr

/-- A row of the `project_members` relation projected to `project_id`, as
returned by the member-ids lookup in `fetchProjects`. -/
structure MemberRow where
  project_id : String
deriving DecidableEq, Repr

/-- The remote calls an operation can issue, with the payloads the claims
inspect.  Used to state that an operation issued no call, or no lookup. -/
inductive RemoteCall where
  | queryOwned (userId : String)
  | queryMemberIds (userId : String)
  | queryProjectsIn (ids : List String)
  | insertProject (name userId : String)
  | insertMember (projectId userId role : String)
  | deleteProjectCall (id : String)
  | rpcVerifyPassword (projectId : String)
  | upsertMember (projectId userId role : String)
  | deleteMember (projectId userId : String)
deriving DecidableEq, Repr, BEq

/-- The read-only lookups among the remote calls (the three queries issued by
`fetchProjects`). -/
def isLookup : RemoteCall → Bool
  | .queryOwned _ => true
  | .queryMemberIds _ => true
  | .queryProjectsIn _ => true
  | _ => false

/-- The deduplication step of `fetchProjects`:
`allProjects.filter((project, index, self) => project && index ===
self.findIndex(p => p && p.id === project.id))` keeps an element exactly when
no element before it has the same `id`.  `seen` is the list of elements
strictly before the current one (the model has no `null` entries, so the
`project &&` guards are vacuous). -/
def uniqueAux (seen : List Project) : List Project → List Project
  | [] => []
  | p :: rest =>
    if seen.any (fun q => q.id == p.id) then
      uniqueAux (seen ++ [p]) rest
    else
      p :: uniqueAux (seen ++ [p]) rest

/-- The merged list with duplicates removed, as computed at the end of
`fetchProjects` (lines 86-90 of `ProjectsContext.tsx`). -/
def uniqueById (self : List Project) : List Project :=
  uniqueAux [] self

/-- Modelled from the spec: "merges and deduplicates results by identifier,
preferring first occurrence" — the canonical first-occurrence deduplication
by identifier, written independently of the source's `findIndex` encoding. -/
def dedupFirstById : List Project → List Project
  | [] => []
  | p :: rest => p :: dedupFirstById (rest.filter (fun q => q.id != p.id))
termination_by l => l.length
decreasing_by
  simp only [List.length_cons]
  exact Nat.lt_succ_of_le (List.length_filter_le _ _)

/-- The local project list never holds two entries with the same identifier. -/
def NodupIds (l : List Project) : Prop :=
  l.Pairwise (fun a b => a.id ≠ b.id)

instance : DecidablePred NodupIds := fun l =>
  List.instDecidablePairwise l

/-!
## The operations of the Collaborative Data Store

Each operation takes the backend responses it consumes and the previous local
project list, and returns its JS return value, the new local list, and the
trace of remote calls issued.  A `user` argument of `none` models "no user
logged in".
-/

/-- `fetchProjects` (lines 38-93): the two-lookup re-synchronization.
`ownedRes` answers the owned-projects query, `memberIdsRes` the member
project-ids query, and `memberFetch ids` the query for the projects whose ids
are `ids` (issued only when `ids` is non-empty).  On an owned-lookup error the
list is cleared and the procedure stops; a member-lookup error is only logged
and the merge proceeds with what succeeded.  Returns the list passed to
`setProjects` and the lookups issued. -/
def fetchProjects (userId : String)
    (ownedRes : QueryResult (List Project))
    (memberIdsRes : QueryResult (List MemberRow))
    (memberFetch : List String → QueryResult (List Project)) :
    List Project × List RemoteCall :=
  if (ownedRes.error).isSome then
    ([], [RemoteCall.queryOwned userId])
  else
    let ownedProjects := ownedRes.data.getD []
    let projectIds := (memberIdsRes.data.getD []).map (fun m => m.project_id)
    let memberRes :=
      if projectIds.length > 0 then some (memberFetch projectIds) else none
    let memberProjects : List Project :=
      match memberRes with
      | none => []
      | some r => if (r.error).isSome then [] else r.data.getD []
    let allProjects := ownedProjects ++ memberProjects
    (uniqueById allProjects,
      [RemoteCall.queryOwned userId, RemoteCall.queryMemberIds userId] ++
        (match memberRes with
         | none => []
         | some _ => [RemoteCall.queryProjectsIn projectIds]))

/-- The optimistic local insert shared by `addProject` (lines 167-173) and
`joinProject` (lines 222-227): append the new project unless an entry with
the same id is already present. -/
def optimisticInsert (prev : List Project) (newProject : Project) :
    List Project :=
  if (prev.find? (fun p => p.id == newProject.id)).isSome then prev
  else prev ++ [newProject]

/-- `addProject` (lines 137-177).  `insertRes` answers the project insert,
`memberInsertError` the follow-up membership insert (its region is reached
only when the project insert returned a row).  A membership-insert failure is
only logged; the project is still returned and optimistically added. -/
def addProject (user : Option String) (name : String)
    (insertRes : QueryResult (List Project))
    (memberInsertError : Option PgError)
    (prev : List Project) :
    Option Project × List Project × List RemoteCall :=
  match user with
  | none => (none, prev, [])
  | some uid =>
    if (insertRes.error).isSome then
      (none, prev, [RemoteCall.insertProject name uid])
    else
      match insertRes.data with
      | some (newProject :: _) =>
        let _ := memberInsertError
        (some newProject, optimisticInsert prev newProject,
          [RemoteCall.insertProject name uid,
           RemoteCall.insertMember newProject.id uid "admin"])
      | _ => (none, prev, [RemoteCall.insertProject name uid])

/-- `deleteProject` (lines 179-186): no user check; the remote delete is
always issued, and on success the local list is filtered by id. -/
def deleteProject (deleteError : Option PgError) (pid : String)
    (prev : List Project) : List Project × List RemoteCall :=
  match deleteError with
  | some _ => (prev, [RemoteCall.deleteProjectCall pid])
  | none => (prev.filter (fun p => p.id != pid),
             [RemoteCall.deleteProjectCall pid])

/-- `joinProject` (lines 188-233).  `rpcRes` answers the
`verify_project_password` RPC; `memberInsertError` the membership insert
(reached only when the RPC returned a row).  A membership-insert error with
code `23505` (already a member) is tolerated: the join still succeeds. -/
def joinProject (user : Option String) (pid : String)
    (rpcRes : QueryResult (List Project))
    (memberInsertError : Option PgError)
    (prev : List Project) :
    Option Project × List Project × List RemoteCall :=
  match user with
  | none => (none, prev, [])
  | some uid =>
    if (rpcRes.error).isSome then
      (none, prev, [RemoteCall.rpcVerifyPassword pid])
    else
      match rpcRes.data with
      | some (joinedProject :: _) =>
        let calls := [RemoteCall.rpcVerifyPassword pid,
                      RemoteCall.insertMember joinedProject.id uid "member"]
        (match memberInsertError with
         | some e =>
           if e.code != "23505" then (none, prev, calls)
           else (some joinedProject, optimisticInsert prev joinedProject, calls)
         | none => (some joinedProject, optimisticInsert prev joinedProject, calls))
      | _ => (none, prev, [RemoteCall.rpcVerifyPassword pid])

/-- `joinRole` (lines 235-250): upserts the membership role; the local
project list is never touched, success or failure. -/
def joinRole (user : Option String) (pid role : String)
    (upsertError : Option PgError) (prev : List Project) :
    List Project × List RemoteCall :=
  match user with
  | none => (prev, [])
  | some uid =>
    let _ := upsertError
    (prev, [RemoteCall.upsertMember pid uid role])

/-- `leaveProject` (lines 252-269): deletes the membership row and on success
filters the local list by id. -/
def leaveProject (user : Option String) (pid : String)
    (deleteError : Option PgError) (prev : List Project) :
    List Project × List RemoteCall :=
  match user with
  | none => (prev, [])
  | some uid =>
    match deleteError with
    | some _ => (prev, [RemoteCall.deleteMember pid uid])
    | none => (prev.filter (fun p => p.id != pid),
               [RemoteCall.deleteMember pid uid])

/-- The realtime DELETE handler (lines 115-121): `setProjects(prev =>
prev.filter(p => p.id !== payload.old.id))`, issuing no remote call. -/
def applyDeleteEvent (oldId : String) (prev : List Project) : List Project :=
  prev.filter (fun p => p.id != oldId)

/-! ## The realtime subscription (lines 98-129) -/

/-- The postgres change events the channel can subscribe to. -/
inductive ChangeEvent where
  | INSERT
  | UPDATE
  | DELETE
deriving DecidableEq, Repr, BEq

/-- One `.on('postgres_changes', …)` registration: event kind, table, and the
optional row filter. -/
structure Subscription where
  event : ChangeEvent
  table : String
  filter : Option String
deriving DecidableEq, Repr, BEq

/-- What a registered handler does when its event fires: re-run the full
two-lookup `fetchProjects`, or filter the previous list by the deleted id. -/
inductive HandlerAction where
  | refetch
  | filterByDeletedId
deriving DecidableEq, Repr, BEq

/-- The four handlers registered on the `realtime-projects` channel for the
user `uid`, in registration order. -/
def realtimeHandlers (uid : String) : List (Subscription × HandlerAction) :=
  [ ({ event := .INSERT, table := "projects",
       filter := some ("user_id=eq." ++ uid) }, .refetch),
    ({ event := .UPDATE, table := "projects", filter := none }, .refetch),
    ({ event := .DELETE, table := "projects", filter := none },
      .filterByDeletedId),
    ({ event := .INSERT, table := "project_members",
       filter := some ("user_id=eq." ++ uid) }, .refetch) ]

/-- The effect of a handler action on the local list: `refetch` replaces the
list with the result of the two-lookup `fetchProjects` (ignoring the event
payload and the previous list), `filterByDeletedId` applies the local filter
by `payload.old.id` (issuing no lookup). -/
def applyAction (a : HandlerAction) (uid : String)
    (ownedRes : QueryResult (List Project))
    (memberIdsRes : QueryResult (List MemberRow))
    (memberFetch : List String → QueryResult (List Project))
    (oldId : String) (prev : List Project) : List Project :=
  match a with
  | .refetch => (fetchProjects uid ownedRes memberIdsRes memberFetch).fst
  | .filterByDeletedId => applyDeleteEvent oldId prev

/-!
## The subscription lifecycle (the `useEffect` of lines 32-135)

React's effect contract for `useEffect(body, [user])`: the body runs after
mount and after every change of `user`, the cleanup returned by the previous
run (if any) runs before the next run and on unmount.  The effect body
(lines 32-135) subscribes one channel when `user` is non-null and returns a
cleanup that removes exactly that channel; when `user` is null it subscribes
nothing and returns no cleanup.  The state records the live channels (by the
user id they were subscribed for), the cleanup the last run returned, and the
current value of the `user` dependency.
-/

/-- Lifecycle state of the `ProjectsProvider` effect: which channels are
live, what the pending cleanup would remove, and the current `user`. -/
structure EffectState where
  activeChannels : List String
  pendingCleanup : Option String
  currentUser : Option String
deriving DecidableEq, Repr

/-- Run the cleanup the previous effect run returned: `supabase.removeChannel
(channel)` for the channel it subscribed, or nothing when the previous run
returned no cleanup. -/
def runCleanup (s : EffectState) : List String :=
  match s.pendingCleanup with
  | none => s.activeChannels
  | some c => s.activeChannels.filter (fun x => x != c)

/-- The effect body for dependency value `u`: with no user it subscribes
nothing and returns no cleanup (the early `return`); with a user it
subscribes the `realtime-projects` channel and returns the cleanup that
removes it.  Returns (channels after the run, cleanup returned). -/
def runEffectBody (u : Option String) (channels : List String) :
    List String × Option String :=
  match u with
  | none => (channels, none)
  | some uid => (channels ++ [uid], some uid)

/-- One React lifecycle step for a (re)render with dependency value `u`:
first the previous cleanup runs, then the effect body for `u`. -/
def setUserStep (s : EffectState) (u : Option String) : EffectState :=
  let cleaned := runCleanup s
  let r := runEffectBody u cleaned
  { activeChannels := r.fst, pendingCleanup := r.snd, currentUser := u }

/-- Unmount: only the pending cleanup runs. -/
def unmountStep (s : EffectState) : EffectState :=
  { activeChannels := runCleanup s, pendingCleanup := none,
    currentUser := s.currentUser }

/-- The lifecycle states the provider can reach while mounted: the first
effect run after mount (from no channels, no pending cleanup), then any
sequence of `user` changes. -/
inductive ProviderReachable : EffectState → Prop where
  | mount (u : Option String) :
      ProviderReachable (setUserStep ⟨[], none, none⟩ u)
  | step (s : EffectState) (u : Option String) :
      ProviderReachable s → ProviderReachable (setUserStep s u)

/-!
## Reachable local project lists

Every way the source ever calls `setProjects`: the initial `useState([])`,
the `setProjects([])` when the user vanishes or the owned lookup fails (both
inside `fetchProjects`'s model), the fetch result, the optimistic inserts of
`addProject`/`joinProject`, the success filters of `deleteProject` and
`leaveProject`, and the realtime DELETE handler.  `joinRole` never touches
the list.
-/

/-- The local project lists reachable from the initial `useState([])` by the
store's operations, with arbitrary backend responses. -/
inductive StoreReachable : List Project → Prop where
  | init : StoreReachable []
  | clear (s : List Project) : StoreReachable s → StoreReachable []
  | fetch (s : List Project) (uid : String)
      (ownedRes : QueryResult (List Project))
      (memberIdsRes : QueryResult (List MemberRow))
      (memberFetch : List String → QueryResult (List Project)) :
      StoreReachable s →
      StoreReachable (fetchProjects uid ownedRes memberIdsRes memberFetch).fst
  | add (s : List Project) (user : Option String) (name : String)
      (insertRes : QueryResult (List Project)) (mErr : Option PgError) :
      StoreReachable s →
      StoreReachable (addProject user name insertRes mErr s).snd.fst
  | join (s : List Project) (user : Option String) (pid : String)
      (rpcRes : QueryResult (List Project)) (mErr : Option PgError) :
      StoreReachable s →
      StoreReachable (joinProject user pid rpcRes mErr s).snd.fst
  | del (s : List Project) (dErr : Option PgError) (pid : String) :
      StoreReachable s →
      StoreReachable (deleteProject dErr pid s).fst
  | leave (s : List Project) (user : Option String) (pid : String)
      (dErr : Option PgError) :
      StoreReachable s →
      StoreReachable (leaveProject user pid dErr s).fst
  | deleteEvent (s : List Project) (oldId : String) :
      StoreReachable s → StoreReachable (applyDeleteEvent oldId s)

/-! ## Lemmas about the deduplication step -/

/-- `uniqueAux seen l` has pairwise distinct ids, and every id it keeps is
absent from `seen`. -/
lemma uniqueAux_spec (l : List Project) : ∀ seen : List Project,
    NodupIds (uniqueAux seen l) ∧
    ∀ p ∈ uniqueAux seen l, seen.any (fun q => q.id == p.id) = false := by
  induction l with
  | nil =>
    intro seen
    refine ⟨List.Pairwise.nil, ?_⟩
    intro p hp
    simp [uniqueAux] at hp
  | cons p rest ih =>
    intro seen
    by_cases h : seen.any (fun q => q.id == p.id) = true
    · rw [uniqueAux, if_pos h]
      obtain ⟨h1, h2⟩ := ih (seen ++ [p])
      refine ⟨h1, ?_⟩
      intro q hq
      have hq2 := h2 q hq
      simp only [List.any_append, List.any_cons, List.any_nil,
        Bool.or_eq_false_iff] at hq2
      exact hq2.1
    · rw [uniqueAux, if_neg h]
      obtain ⟨h1, h2⟩ := ih (seen ++ [p])
      constructor
      · refine List.Pairwise.cons ?_ h1
        intro q hq
        have hq2 := h2 q hq
        simp only [List.any_append, List.any_cons, List.any_nil,
          Bool.or_eq_false_iff, beq_eq_false_iff_ne] at hq2
        exact hq2.2.1
      · intro q hq
        rcases List.mem_cons.mp hq with hq | hq
        · subst hq
          exact Bool.eq_false_iff.mpr h
        · have hq2 := h2 q hq
          simp only [List.any_append, List.any_cons, List.any_nil,
            Bool.or_eq_false_iff] at hq2
          exact hq2.1

/-- The merged-and-deduplicated list has no two entries with the same id. -/
lemma nodupIds_uniqueById (l : List Project) : NodupIds (uniqueById l) :=
  (uniqueAux_spec l []).1

/-- Filtering preserves distinctness of ids. -/
lemma nodupIds_filter (f : Project → Bool) (l : List Project)
    (h : NodupIds l) : NodupIds (l.filter f) :=
  List.Pairwise.sublist (List.filter_sublist l) h

/-- The guarded optimistic append preserves distinctness of ids. -/
lemma nodupIds_optimisticInsert (prev : List Project) (x : Project)
    (h : NodupIds prev) : NodupIds (optimisticInsert prev x) := by
  unfold optimisticInsert
  by_cases hf : (prev.find? (fun p => p.id == x.id)).isSome
  · simpa [hf] using h
  · rw [if_neg hf]
    have hn : prev.find? (fun p => p.id == x.id) = none :=
      Option.not_isSome_iff_eq_none.mp hf
    have habsent := List.find?_eq_none.mp hn
    apply List.pairwise_append.mpr
    refine ⟨h, List.pairwise_singleton _ _, ?_⟩
    intro a ha b hb
    have hb' : b = x := by simpa using hb
    subst hb'
    intro hEq
    exact habsent a ha (by simp [hEq])

/-- The source's `findIndex`-based deduplication, generalized over the
already-seen prefix, agrees with the spec's first-occurrence deduplication on
the elements whose id was not yet seen. -/
lemma uniqueAux_eq_dedupFirst (l : List Project) : ∀ seen : List Project,
    uniqueAux seen l =
      dedupFirstById (l.filter (fun q => !seen.any (fun s => s.id == q.id))) := by
  induction l with
  | nil =>
    intro seen
    simp [uniqueAux, dedupFirstById]
  | cons p rest ih =>
    intro seen
    by_cases h : seen.any (fun q => q.id == p.id) = true
    · rw [uniqueAux, if_pos h, ih (seen ++ [p])]
      rw [List.filter_cons_of_neg (by simp [h])]
      congr 1
      apply List.filter_congr
      intro q _
      simp only [List.any_append, List.any_cons, List.any_nil, Bool.or_false,
        Bool.not_or]
      by_cases hpq : p.id = q.id
      · have hsq : seen.any (fun s => s.id == q.id) = true := by
          rcases List.any_eq_true.mp h with ⟨s, hs, hsp⟩
          refine List.any_eq_true.mpr ⟨s, hs, ?_⟩
          rw [← hpq]
          exact hsp
        simp [hsq]
      · simp [hpq]
    · rw [uniqueAux, if_neg h, ih (seen ++ [p])]
      rw [List.filter_cons_of_pos (by simp [Bool.eq_false_iff.mpr h])]
      rw [dedupFirstById, List.filter_filter]
      congr 1
      congr 1
      apply List.filter_congr
      intro q _
      simp only [List.any_append, List.any_cons, List.any_nil, Bool.or_false,
        Bool.not_or, bne]
      by_cases hpq : p.id = q.id
      · simp [hpq]
      · have h1 : (q.id == p.id) = false := by
          simp [Ne.symm hpq]
        have h2 : (p.id == q.id) = false := by
          simp [hpq]
        simp [h1, h2]

/-- The merged list, deduplicated as the source writes it, is exactly the
spec's first-occurrence deduplication. -/
lemma uniqueById_eq_dedupFirst (l : List Project) :
    uniqueById l = dedupFirstById l := by
  rw [uniqueById, uniqueAux_eq_dedupFirst]
  simp

/-! ## Per-operation preservation of the distinct-ids invariant -/

/-- The list `fetchProjects` installs always has pairwise distinct ids. -/
lemma nodupIds_fetchProjects (uid : String)
    (ownedRes : QueryResult (List Project))
    (memberIdsRes : QueryResult (List MemberRow))
    (memberFetch : List String → QueryResult (List Project)) :
    NodupIds (fetchProjects uid ownedRes memberIdsRes memberFetch).fst := by
  unfold fetchProjects
  by_cases he : (ownedRes.error).isSome
  · simp only [he, if_true]
    exact List.Pairwise.nil
  · simp only [he, if_false, Bool.false_eq_true]
    exact nodupIds_uniqueById _

/-- `addProject` preserves the distinct-ids invariant. -/
lemma nodupIds_addProject (user : Option String) (name : String)
    (insertRes : QueryResult (List Project)) (mErr : Option PgError)
    (prev : List Project) (h : NodupIds prev) :
    NodupIds (addProject user name insertRes mErr prev).snd.fst := by
  unfold addProject
  match user with
  | none => exact h
  | some uid =>
    by_cases he : (insertRes.error).isSome
    · simp only [he, if_true]
      exact h
    · simp only [he, if_false, Bool.false_eq_true]
      match insertRes.data with
      | some (newProject :: _) => exact nodupIds_optimisticInsert prev _ h
      | some [] => exact h
      | none => exact h

/-- `joinProject` preserves the distinct-ids invariant. -/
lemma nodupIds_joinProject (user : Option String) (pid : String)
    (rpcRes : QueryResult (List Project)) (mErr : Option PgError)
    (prev : List Project) (h : NodupIds prev) :
    NodupIds (joinProject user pid rpcRes mErr prev).snd.fst := by
  unfold joinProject
  match user with
  | none => exact h
  | some uid =>
    by_cases he : (rpcRes.error).isSome
    · simp only [he, if_true]
      exact h
    · simp only [he, if_false, Bool.false_eq_true]
      match rpcRes.data with
      | some (joinedProject :: _) =>
        match mErr with
        | some e =>
          by_cases hc : (e.code != "23505") = true
          · simp only [hc, if_true]
            exact h
          · simp only [hc, if_false, Bool.false_eq_true]
            exact nodupIds_optimisticInsert prev _ h
        | none => exact nodupIds_optimisticInsert prev _ h
      | some [] => exact h
      | none => exact h

/-! ## The subscription lifecycle invariant -/

/-- While mounted, the pending cleanup is exactly the channel of the current
user, and the live channels are exactly one channel for the current user (or
none when no user is known). -/
lemma provider_lifecycle_inv (s : EffectState) (h : ProviderReachable s) :
    s.pendingCleanup = s.currentUser ∧
    s.activeChannels =
      (match s.currentUser with | none => [] | some u => [u]) := by
  induction h with
  | mount u =>
    cases u <;> simp [setUserStep, runCleanup, runEffectBody]
  | step s u hs ih =>
    obtain ⟨ih1, ih2⟩ := ih
    cases hcu : s.currentUser with
    | none =>
      rw [hcu] at ih1 ih2
      cases u <;>
        simp [setUserStep, runCleanup, runEffectBody, ih1, ih2]
    | some c =>
      rw [hcu] at ih1 ih2
      cases u <;>
        simp [setUserStep, runCleanup, runEffectBody, ih1, ih2]

/-! ## Sample data for concrete evaluations -/

/-- A sample owned project with id `"1"`. -/
def pA : Project :=
  { id := "1", name := "alpha", created_at := "t0", user_id := "u" }

/-- A sample member-linked copy of project id `"1"` (same id as `pA`). -/
def pB : Project :=
  { id := "1", name := "beta", created_at := "t1", user_id := "v" }

/-- A sample project with id `"2"`. -/
def pC : Project :=
  { id := "2", name := "gamma", created_at := "t2", user_id := "u" }

/-! ## The claims -/

/-- C1: every local project list reachable from the initial empty state by
the store's operations (re-synchronization, `addProject`'s and
`joinProject`'s optimistic inserts, `deleteProject`, `leaveProject`, and the
realtime DELETE handler, under arbitrary backend responses) contains no two
entries with the same identifier. -/
theorem reachable_states_have_nodup_ids (s : List Project)
    (h : StoreReachable s) : NodupIds s := by
  induction h with
  | init => exact List.Pairwise.nil
  | clear s hs ih => exact List.Pairwise.nil
  | fetch s uid ownedRes memberIdsRes memberFetch hs ih =>
    exact nodupIds_fetchProjects uid ownedRes memberIdsRes memberFetch
  | add s user name insertRes mErr hs ih =>
    exact nodupIds_addProject user name insertRes mErr s ih
  | join s user pid rpcRes mErr hs ih =>
    exact nodupIds_joinProject user pid rpcRes mErr s ih
  | del s dErr pid hs ih =>
    cases dErr with
    | some e => exact ih
    | none => exact nodupIds_filter _ s ih
  | leave s user pid dErr hs ih =>
    cases user with
    | none => exact ih
    | some uid =>
      cases dErr with
      | some e => exact ih
      | none => exact nodupIds_filter _ s ih
  | deleteEvent s oldId hs ih => exact nodupIds_filter _ s ih

/-- Witness for C1 at the initial state. -/
theorem reachable_states_have_nodup_ids_witness :
    StoreReachable ([] : List Project) ∧ NodupIds ([] : List Project) :=
  ⟨StoreReachable.init,
   reachable_states_have_nodup_ids [] StoreReachable.init⟩

/-- C2: when both lookups succeed, the re-synchronization installs exactly
the concatenation of owned projects followed by member projects,
deduplicated by identifier keeping the first occurrence of each id (so an
owned copy wins over a member-linked copy with the same id). -/
theorem fetch_sets_first_occurrence_dedup (uid : String)
    (owned member : List Project) (ids : List MemberRow) (h : ids ≠ []) :
    (fetchProjects uid ⟨some owned, none⟩ ⟨some ids, none⟩
        (fun _ => ⟨some member, none⟩)).fst =
      dedupFirstById (owned ++ member) := by
  have hlen : 0 < ids.length := List.length_pos.mpr h
  simp [fetchProjects, hlen, uniqueById_eq_dedupFirst]

/-- Witness for C2: an owned and a member-linked copy of project id `"1"`. -/
theorem fetch_sets_first_occurrence_dedup_witness :
    ([({ project_id := "1" } : MemberRow)]) ≠ [] ∧
    (fetchProjects "u" ⟨some [pA], none⟩
        ⟨some [{ project_id := "1" }], none⟩
        (fun _ => ⟨some [pB], none⟩)).fst = dedupFirstById ([pA] ++ [pB]) :=
  ⟨by decide,
   fetch_sets_first_occurrence_dedup "u" [pA] [pB]
     [{ project_id := "1" }] (by decide)⟩

/-- C4: when the password RPC returns the project and the membership insert
fails with the unique-constraint code `23505`, `joinProject` still succeeds:
it returns the joined project and applies the optimistic local insert. -/
theorem join_duplicate_membership_treated_as_success (uid pid msg : String)
    (proj : Project) (rest prev : List Project) :
    joinProject (some uid) pid ⟨some (proj :: rest), none⟩
        (some { code := "23505", message := msg }) prev =
      (some proj, optimisticInsert prev proj,
       [RemoteCall.rpcVerifyPassword pid,
        RemoteCall.insertMember proj.id uid "member"]) := by
  simp [joinProject]

/-- C5: a successful `leaveProject` keeps exactly the entries whose id
differs from the left project, as a sublist of the previous list (so every
other entry is unchanged and in its original order). -/
theorem leave_removes_exactly_that_project (uid pid : String)
    (prev : List Project) :
    List.Sublist (leaveProject (some uid) pid none prev).fst prev ∧
    (∀ p : Project, p ∈ (leaveProject (some uid) pid none prev).fst ↔
      (p ∈ prev ∧ p.id ≠ pid)) := by
  constructor
  · exact List.filter_sublist prev
  · intro p
    simp [leaveProject, List.mem_filter]

/-- C6: deletion is applied purely by local filtering: a successful
`deleteProject` filters the previous list by id and issues only the remote
delete (no lookup), the realtime DELETE handler is registered with the
local-filter action (not a refetch), and applying that action filters the
previous list by the deleted id without consulting the backend. -/
theorem delete_applied_by_local_filter (uid pid oldId : String)
    (prev : List Project) :
    deleteProject none pid prev =
      (prev.filter (fun p => p.id != pid),
       [RemoteCall.deleteProjectCall pid]) ∧
    ((deleteProject none pid prev).snd.all (fun c => !isLookup c)) = true ∧
    ((realtimeHandlers uid).filter
        (fun h => h.fst.event == ChangeEvent.DELETE)) =
      [({ event := .DELETE, table := "projects", filter := none },
        HandlerAction.filterByDeletedId)] ∧
    (∀ (ownedRes : QueryResult (List Project))
       (memberIdsRes : QueryResult (List MemberRow))
       (memberFetch : List String → QueryResult (List Project)),
      applyAction HandlerAction.filterByDeletedId uid ownedRes memberIdsRes
          memberFetch oldId prev = prev.filter (fun p => p.id != oldId)) := by
  exact ⟨rfl, rfl, rfl, fun _ _ _ => rfl⟩

/-- C7: every handler registered for an INSERT or UPDATE event (project
inserts filtered to the current user, any project update, and membership
inserts filtered to the current user) carries the full-refetch action, and
that action re-runs the two-lookup `fetchProjects`, ignoring the event
payload and the previous list. -/
theorem insert_update_events_trigger_full_refetch (uid oldId : String)
    (prev : List Project) :
    ((realtimeHandlers uid).filter
        (fun h => h.fst.event == ChangeEvent.INSERT ||
                  h.fst.event == ChangeEvent.UPDATE)) =
      [ ({ event := .INSERT, table := "projects",
           filter := some ("user_id=eq." ++ uid) }, HandlerAction.refetch),
        ({ event := .UPDATE, table := "projects", filter := none },
          HandlerAction.refetch),
        ({ event := .INSERT, table := "project_members",
           filter := some ("user_id=eq." ++ uid) }, HandlerAction.refetch) ] ∧
    (∀ (ownedRes : QueryResult (List Project))
       (memberIdsRes : QueryResult (List MemberRow))
       (memberFetch : List String → QueryResult (List Project)),
      applyAction HandlerAction.refetch uid ownedRes memberIdsRes memberFetch
          oldId prev =
        (fetchProjects uid ownedRes memberIdsRes memberFetch).fst) := by
  exact ⟨rfl, fun _ _ _ => rfl⟩

/-- C9: a successful `addProject` issues the membership insert
`(project id, current user id, role "admin")` for the creator, and — whatever
that membership insert answered, error included — still returns the new
project and still applies the optimistic local insert. -/
theorem add_project_inserts_admin_membership (uid name : String)
    (proj : Project) (rest prev : List Project) (mErr : Option PgError) :
    addProject (some uid) name ⟨some (proj :: rest), none⟩ mErr prev =
      (some proj, optimisticInsert prev proj,
       [RemoteCall.insertProject name uid,
        RemoteCall.insertMember proj.id uid "admin"]) := by
  simp [addProject]

/-- C10: with no authenticated user, `addProject` and `joinProject` return
null and `joinRole` and `leaveProject` return, all with the local list
untouched and no remote call issued; `deleteProject` takes no user at all
and always issues the remote delete, filtering the list on success. -/
theorem no_user_short_circuits (name pid role : String)
    (insertRes rpcRes : QueryResult (List Project))
    (mErr mErr2 uErr lErr dErr : Option PgError) (prev : List Project) :
    addProject none name insertRes mErr prev = (none, prev, []) ∧
    joinProject none pid rpcRes mErr2 prev = (none, prev, []) ∧
    joinRole none pid role uErr prev = (prev, []) ∧
    leaveProject none pid lErr prev = (prev, []) ∧
    (deleteProject dErr pid prev).snd = [RemoteCall.deleteProjectCall pid] ∧
    deleteProject none pid prev =
      (prev.filter (fun p => p.id != pid),
       [RemoteCall.deleteProjectCall pid]) := by
  refine ⟨rfl, rfl, rfl, rfl, ?_, rfl⟩
  cases dErr with
  | some e => rfl
  | none => rfl

/-- C3 counterexample: with prior local list `[pA]`, a remote error in the
owned-projects lookup during re-synchronization does not leave the local
list unchanged — the code clears it (`setProjects([])`, lines 50-55 of
`ProjectsContext.tsx`), so the new list differs from the prior one. -/
theorem fetch_error_changes_prior_state_cex :
    (fetchProjects "u" ⟨none, some { code := "500", message := "boom" }⟩
        ⟨none, none⟩ (fun _ => ⟨none, none⟩)).fst ≠ [pA] := by
  decide

/-- C3 amended: every remote error is logged and the operation returns a
null/void result; the mutation operations (`addProject`, `deleteProject`,
`joinProject` — RPC error or a non-`23505` membership-insert error —
`joinRole`, `leaveProject`) leave the local list unchanged, while during the
two-lookup re-synchronization an owned-lookup error clears the list and a
member-lookup error makes the merge proceed with the owned projects only. -/
theorem remote_error_behavior
    (uid name pid role : String) (proj : Project) (rest : List Project)
    (e e2 : PgError) (d d2 : Option (List Project))
    (mErr mErr2 : Option PgError) (prev owned : List Project)
    (ids : List MemberRow) (memberIdsRes : QueryResult (List MemberRow))
    (mf : List String → QueryResult (List Project))
    (h23 : e2.code ≠ "23505") (hids : ids ≠ []) :
    addProject (some uid) name ⟨d, some e⟩ mErr prev =
      (none, prev, [RemoteCall.insertProject name uid]) ∧
    deleteProject (some e) pid prev =
      (prev, [RemoteCall.deleteProjectCall pid]) ∧
    joinProject (some uid) pid ⟨d2, some e⟩ mErr2 prev =
      (none, prev, [RemoteCall.rpcVerifyPassword pid]) ∧
    joinProject (some uid) pid ⟨some (proj :: rest), none⟩ (some e2) prev =
      (none, prev, [RemoteCall.rpcVerifyPassword pid,
        RemoteCall.insertMember proj.id uid "member"]) ∧
    joinRole (some uid) pid role (some e) prev =
      (prev, [RemoteCall.upsertMember pid uid role]) ∧
    leaveProject (some uid) pid (some e) prev =
      (prev, [RemoteCall.deleteMember pid uid]) ∧
    (fetchProjects uid ⟨d, some e⟩ memberIdsRes mf).fst = [] ∧
    (fetchProjects uid ⟨some owned, none⟩ ⟨none, some e⟩ mf).fst =
      uniqueById owned ∧
    (fetchProjects uid ⟨some owned, none⟩ ⟨some ids, none⟩
        (fun _ => ⟨d2, some e⟩)).fst = uniqueById owned := by
  refine ⟨rfl, rfl, rfl, ?_, rfl, rfl, rfl, ?_, ?_⟩
  · have hb : (e2.code != "23505") = true := bne_iff_ne.mpr h23
    simp [joinProject, hb]
  · simp [fetchProjects]
  · have hlen : 0 < ids.length := List.length_pos.mpr hids
    simp [fetchProjects, hlen]

/-- Witness for the amended C3 at concrete inputs. -/
theorem remote_error_behavior_witness :
    ({ code := "999", message := "dup" } : PgError).code ≠ "23505" ∧
    ([({ project_id := "2" } : MemberRow)]) ≠ [] ∧
    (addProject (some "u") "n" ⟨none, some { code := "500", message := "x" }⟩
        none [pA] = (none, [pA], [RemoteCall.insertProject "n" "u"]) ∧
     deleteProject (some { code := "500", message := "x" }) "1" [pA] =
        ([pA], [RemoteCall.deleteProjectCall "1"]) ∧
     joinProject (some "u") "1" ⟨none, some { code := "500", message := "x" }⟩
        none [pA] = (none, [pA], [RemoteCall.rpcVerifyPassword "1"]) ∧
     joinProject (some "u") "1" ⟨some (pC :: []), none⟩
        (some { code := "999", message := "dup" }) [pA] =
        (none, [pA], [RemoteCall.rpcVerifyPassword "1",
          RemoteCall.insertMember pC.id "u" "member"]) ∧
     joinRole (some "u") "1" "member"
        (some { code := "500", message := "x" }) [pA] =
        ([pA], [RemoteCall.upsertMember "1" "u" "member"]) ∧
     leaveProject (some "u") "1"
        (some { code := "500", message := "x" }) [pA] =
        ([pA], [RemoteCall.deleteMember "1" "u"]) ∧
     (fetchProjects "u" ⟨none, some { code := "500", message := "x" }⟩
        ⟨none, none⟩ (fun _ => ⟨none, none⟩)).fst = [] ∧
     (fetchProjects "u" ⟨some [pA], none⟩
        ⟨none, some { code := "500", message := "x" }⟩
        (fun _ => ⟨none, none⟩)).fst = uniqueById [pA] ∧
     (fetchProjects "u" ⟨some [pA], none⟩
        ⟨some [{ project_id := "2" }], none⟩
        (fun _ => ⟨none, some { code := "500", message := "x" }⟩)).fst =
       uniqueById [pA]) :=
  ⟨by decide, by decide,
   remote_error_behavior "u" "n" "1" "member" pC []
     { code := "500", message := "x" } { code := "999", message := "dup" }
     none none none none [pA] [pA] [{ project_id := "2" }] ⟨none, none⟩
     (fun _ => ⟨none, none⟩) (by decide) (by decide)⟩

/-- C8: in every reachable lifecycle state of the provider, no channel is
live while no user is known, exactly the current user's channel is live when
a user is known (so no stale channel of a previous user survives a user
change), and unmounting removes every live channel. -/
theorem subscription_scoped_resource (s : EffectState)
    (h : ProviderReachable s) :
    (s.currentUser = none → s.activeChannels = []) ∧
    (∀ c : String, s.currentUser = some c → s.activeChannels = [c]) ∧
    (unmountStep s).activeChannels = [] := by
  obtain ⟨h1, h2⟩ := provider_lifecycle_inv s h
  refine ⟨?_, ?_, ?_⟩
  · intro hn
    rw [h2, hn]
  · intro c hc
    rw [h2, hc]
  · cases hcu : s.currentUser with
    | none =>
      rw [hcu] at h1 h2
      simp [unmountStep, runCleanup, h1, h2]
    | some c =>
      rw [hcu] at h1 h2
      simp [unmountStep, runCleanup, h1, h2]

/-- Witness for C8 at the state reached by mounting with user `"u"`. -/
theorem subscription_scoped_resource_witness :
    ProviderReachable (setUserStep ⟨[], none, none⟩ (some "u")) ∧
    (((setUserStep ⟨[], none, none⟩ (some "u")).currentUser = none →
        (setUserStep ⟨[], none, none⟩ (some "u")).activeChannels = []) ∧
     (∀ c : String,
        (setUserStep ⟨[], none, none⟩ (some "u")).currentUser = some c →
        (setUserStep ⟨[], none, none⟩ (some "u")).activeChannels = [c]) ∧
     (unmountStep (setUserStep ⟨[], none, none⟩ (some "u"))).activeChannels =
       []) :=
  ⟨ProviderReachable.mount (some "u"),
   subscription_scoped_resource _ (ProviderReachable.mount (some "u"))⟩

end Cowork

